import Mathlib

/-!
Verification of the fixed-capacity object pool (`Vault`) from `src/main.cpp`.

Shallow embedding of the `Vault<ElementData>` class and its operations:
`view`, `allocate`, `deallocate(size_t)`, `deallocate(std::function)`, `dump`.

The pool state is modelled as a `List (Element α)`: the C++ member
`std::array<Element, maxElementNumber> storage` is a fixed sequence of
elements, each holding a payload `data` and an atomic occupancy flag
`inUse` (the per-element `std::mutex` carries no state between operations
in a sequential execution, so locks are modelled separately as an event
trace, see `LockEvent` below).

All three C++ failure paths throw `std::out_of_range`; they are modelled
as the three distinct failure conditions of the three distinct throw
sites (`std::array::at` bounds failure, the explicit
`throw std::out_of_range{"no such element"}`, and the explicit
`throw std::out_of_range{"no empty element found"}`).
-/

set_option autoImplicit false

namespace Vault

/-- The three failure conditions the pool can signal, one per throw site
in `src/main.cpp`. -/
inductive VaultError where
  /-- Bounds failure thrown by the checked access of `std::array::at`: index outside `[0, N)`. -/
  | IndexOutOfRange
  /-- Failure thrown as `std::out_of_range` with message `no such element` in `Vault::view`. -/
  | NotAllocated
  /-- Failure thrown as `std::out_of_range` with message `no empty element found` in `Vault::allocate`. -/
  | CapacityExceeded
  deriving DecidableEq, Repr

/-- One slot of the pool: `struct Element { ElementData data; std::mutex access; std::atomic_bool inUse{false}; }`.
The mutex is not part of the sequential state; lock operations are
modelled as the event traces `allocateEvents` / `viewEvents`. -/
structure Element (α : Type) where
  data : α
  inUse : Bool
  deriving DecidableEq, Repr

/-- A scoped handle bound to one slot: `Vault::ElementView` holds the
slot lock and a reference to the slot data. The binding to the slot is
modelled by the slot index; the data reachable through `operator()` is
the slot payload at the moment the view was created. -/
structure ElementView (α : Type) where
  idx : Nat
  data : α
  deriving DecidableEq, Repr

/-- The scan `std::ranges::find_if_not(storage, &Element::inUse)`: index
of the first slot whose `inUse` flag is false, scanning in index order. -/
def findFreeIdx {α : Type} : List (Element α) → Option Nat
  | [] => none
  | e :: rest => if e.inUse then (findFreeIdx rest).map (· + 1) else some 0

/-- The scan `std::ranges::find_if(storage, ...)` with the lambda
`e.inUse && pred(e.data)`: index of the first slot that is occupied and
whose data satisfies `pred`. -/
def findMatchIdx {α : Type} (pred : α → Bool) : List (Element α) → Option Nat
  | [] => none
  | e :: rest =>
    if e.inUse && pred e.data then some 0 else (findMatchIdx pred rest).map (· + 1)

/-- Write the `inUse` flag of slot `i` (the effect of
`inUse.store(b)` / `inUse.exchange(b)` on the state); all other slots
and all payloads are untouched. -/
def markSlot {α : Type} (b : Bool) : List (Element α) → Nat → List (Element α)
  | [], _ => []
  | e :: rest, 0 => { e with inUse := b } :: rest
  | e :: rest, i + 1 => e :: markSlot b rest i

/-- Operation `Vault::view(size_t idx)`: `storage.at(idx)` bounds-checks the index
(throwing on failure before any lock is taken), the `ElementView`
constructor locks the slot, then `inUse` is checked; a free slot throws
`"no such element"` (the view being unwound releases the lock), an
occupied slot returns the view bound to the slot. The state is not
modified. -/
def view {α : Type} (s : List (Element α)) (idx : Nat) : Except VaultError (ElementView α) :=
  match s[idx]? with
  | none => .error .IndexOutOfRange
  | some e => if e.inUse then .ok ⟨idx, e.data⟩ else .error .NotAllocated

/-- Operation `Vault::allocate()`: under the directory lock, find the first slot
with `inUse` false; if none, throw `"no empty element found"` with no
state change; otherwise `inUse.store(true)` on that slot and return a
view bound to it, the payload left exactly as it was. -/
def allocate {α : Type} (s : List (Element α)) :
    Except VaultError (ElementView α) × List (Element α) :=
  match findFreeIdx s with
  | none => (.error .CapacityExceeded, s)
  | some i =>
    match s[i]? with
    | none => (.error .CapacityExceeded, s)
    | some e => (.ok ⟨i, e.data⟩, markSlot true s i)

/-- Operation `Vault::deallocate(size_t idx)`: `storage.at(idx)` bounds-checks the
index, the slot lock is taken, then `inUse.exchange(false)` clears the
flag and returns its prior value. -/
def deallocate {α : Type} (s : List (Element α)) (idx : Nat) :
    Except VaultError Bool × List (Element α) :=
  match s[idx]? with
  | none => (.error .IndexOutOfRange, s)
  | some e => (.ok e.inUse, markSlot false s idx)

/-- Operation `Vault::deallocate(std::function)` taking a predicate:
under the directory lock, find the first slot that is occupied and whose
data satisfies `pred`; if none, return `false` with no state change
(the throw at that spot is commented out in the source); otherwise lock
the slot, release the directory lock, and return
`inUse.exchange(false)` — the prior flag value. -/
def deallocatePred {α : Type} (pred : α → Bool) (s : List (Element α)) :
    Bool × List (Element α) :=
  match findMatchIdx pred s with
  | none => (false, s)
  | some i =>
    match s[i]? with
    | none => (false, s)
    | some e => (e.inUse, markSlot false s i)

/-- The body of the `Vault::dump` loop for indices `i, i+1, ...` with
`rem` iterations remaining: each iteration calls `view(i)` and records
the index and the data printed through the view; an exception from
`view` propagates out of the loop. -/
def dumpLoop {α : Type} (s : List (Element α)) : Nat → Nat → Except VaultError (List (Nat × α))
  | 0, _ => .ok []
  | rem + 1, i =>
    match view s i with
    | .error err => .error err
    | .ok v =>
      match dumpLoop s rem (i + 1) with
      | .error err => .error err
      | .ok rest => .ok ((i, v.data) :: rest)

/-- Operation `Vault::dump()`: `for (size_t i = 0; i < maxElementNumber; i++) { auto v{view(i)}; print(...); }`.
The loop bound `maxElementNumber` is the size of `storage`, i.e. the
length of the state list. Returns the sequence of `(index, data)` pairs
printed, or the first exception thrown by `view`. -/
def dump {α : Type} (s : List (Element α)) : Except VaultError (List (Nat × α)) :=
  dumpLoop s s.length 0

/-- State-passing form of `view`: the body of `Vault::view` contains no
write to any slot, so the state after the call is the state before it. -/
def viewOp {α : Type} (s : List (Element α)) (idx : Nat) :
    Except VaultError (ElementView α) × List (Element α) :=
  (view s idx, s)

/-- State-passing form of `dump`: the body of `Vault::dump` contains no
write to any slot. -/
def dumpOp {α : Type} (s : List (Element α)) :
    Except VaultError (List (Nat × α)) × List (Element α) :=
  (dump s, s)

/-- The fixed capacity `constexpr size_t maxElementNumber = 1024;`. -/
def maxElementNumber : Nat := 1024

/-- Lock and occupancy events, used to model the order of lock
operations inside a single call. `acqDir`/`relDir` are the directory
mutex `access`; `acqSlot i`/`relSlot i` are slot `i`'s mutex;
`markOccupied i` is the `inUse.store(true)` in `allocate`. -/
inductive LockEvent where
  | acqDir
  | relDir
  | acqSlot (i : Nat)
  | relSlot (i : Nat)
  | markOccupied (i : Nat)
  deriving DecidableEq, Repr

/-- The sequence of lock events of one `Vault::allocate()` call.
`std::unique_lock _{access}` acquires the directory lock; on the success
path `inUse.store(true)` runs, then `return ElementView{*iter}`
constructs the returned view — acquiring the slot lock — and only then
is the local `unique_lock` destroyed, releasing the directory lock
(locals are destroyed after the return value is constructed). On the
failure path the throw unwinds the `unique_lock`, releasing the
directory lock. The slot lock is still held when `allocate` returns:
its release belongs to the caller's view going out of scope. -/
def allocateEvents {α : Type} (s : List (Element α)) : List LockEvent :=
  match findFreeIdx s with
  | none => [.acqDir, .relDir]
  | some i => [.acqDir, .markOccupied i, .acqSlot i, .relDir]

/-- The sequence of lock events of one `Vault::view(idx)` call.
`storage.at(idx)` throws before any lock on an out-of-range index; the
`ElementView` constructor acquires the slot lock; if the slot is free
the throw unwinds the view, releasing the slot lock; on success the
returned view keeps the lock. -/
def viewEvents {α : Type} (s : List (Element α)) (idx : Nat) : List LockEvent :=
  match s[idx]? with
  | none => []
  | some e => if e.inUse then [.acqSlot idx] else [.acqSlot idx, .relSlot idx]

/-- Number of free slots of a state (proof-side counting device, used to
reason about repeated allocation). -/
def countFree {α : Type} : List (Element α) → Nat
  | [] => 0
  | e :: rest => (if e.inUse then 0 else 1) + countFree rest

/-- Iterated allocation: `allocate()` called `k` times in sequence with
no interleaved frees (the driver's fill loops): the list of the `k`
results, and the final state. -/
def allocTimes {α : Type} : Nat → List (Element α) →
    List (Except VaultError (ElementView α)) × List (Element α)
  | 0, s => ([], s)
  | k + 1, s =>
    let p := allocate s
    let q := allocTimes k p.2
    (p.1 :: q.1, q.2)

/-- Position of the first occurrence of `e` in an event list. -/
def firstPos (e : LockEvent) : List LockEvent → Option Nat
  | [] => none
  | x :: rest => if x = e then some 0 else (firstPos e rest).map (· + 1)

/-- Event order: `a` occurs in `evs`, `b` occurs in `evs`, and the first
occurrence of `a` comes strictly before the first occurrence of `b`. -/
def precedes (evs : List LockEvent) (a b : LockEvent) : Bool :=
  match firstPos a evs, firstPos b evs with
  | some i, some j => i < j
  | _, _ => false

/-! ## Basic lemmas about `markSlot` -/

theorem length_markSlot {α : Type} (b : Bool) (s : List (Element α)) (i : Nat) :
    (markSlot b s i).length = s.length := by
  induction s generalizing i with
  | nil => rfl
  | cons e rest ih =>
    cases i with
    | zero => rfl
    | succ n => simp [markSlot, ih]

theorem getElem?_markSlot_self {α : Type} {s : List (Element α)} {i : Nat}
    {e : Element α} (h : s[i]? = some e) (b : Bool) :
    (markSlot b s i)[i]? = some { e with inUse := b } := by
  induction s generalizing i with
  | nil => simp at h
  | cons x rest ih =>
    cases i with
    | zero => simp_all [markSlot]
    | succ n =>
      simp only [List.getElem?_cons_succ] at h
      simpa [markSlot] using ih h

theorem getElem?_markSlot_ne {α : Type} (b : Bool) (s : List (Element α))
    {i j : Nat} (h : j ≠ i) : (markSlot b s i)[j]? = s[j]? := by
  induction s generalizing i j with
  | nil => rfl
  | cons x rest ih =>
    cases i with
    | zero =>
      cases j with
      | zero => exact absurd rfl h
      | succ n => simp [markSlot]
    | succ m =>
      cases j with
      | zero => simp [markSlot]
      | succ n =>
        simp only [markSlot, List.getElem?_cons_succ]
        exact ih (by omega)

theorem markSlot_eq_self {α : Type} {b : Bool} {s : List (Element α)} {i : Nat}
    {e : Element α} (h : s[i]? = some e) (hb : e.inUse = b) : markSlot b s i = s := by
  induction s generalizing i with
  | nil => simp at h
  | cons x rest ih =>
    cases i with
    | zero =>
      simp only [List.getElem?_cons_zero, Option.some.injEq] at h
      rw [← h] at hb
      cases x with
      | mk d u =>
        simp only [markSlot]
        simp_all
    | succ n =>
      simp only [List.getElem?_cons_succ] at h
      simp [markSlot, ih h]

/-! ## Lemmas about the two scans -/

theorem findFreeIdx_eq_none {α : Type} {s : List (Element α)} :
    findFreeIdx s = none ↔ ∀ e ∈ s, e.inUse = true := by
  induction s with
  | nil => simp [findFreeIdx]
  | cons x rest ih =>
    by_cases hx : x.inUse <;>
      simp [findFreeIdx, hx, ih, Option.map_eq_none']

theorem findFreeIdx_some {α : Type} {s : List (Element α)} {i : Nat}
    (h : findFreeIdx s = some i) :
    ∃ e, s[i]? = some e ∧ e.inUse = false ∧
      ∀ j, j < i → ∀ e2, s[j]? = some e2 → e2.inUse = true := by
  induction s generalizing i with
  | nil => simp [findFreeIdx] at h
  | cons x rest ih =>
    by_cases hx : x.inUse
    · rw [findFreeIdx, if_pos hx] at h
      cases hfr : findFreeIdx rest with
      | none => rw [hfr] at h; simp at h
      | some k =>
        rw [hfr] at h
        simp only [Option.map_some', Option.some.injEq] at h
        subst h
        obtain ⟨e, he, hu, hbefore⟩ := ih hfr
        refine ⟨e, by simpa using he, hu, ?_⟩
        intro j hj e2 he2
        cases j with
        | zero =>
          simp only [List.getElem?_cons_zero, Option.some.injEq] at he2
          subst he2; exact hx
        | succ m =>
          simp only [List.getElem?_cons_succ] at he2
          exact hbefore m (by omega) e2 he2
    · rw [findFreeIdx, if_neg hx] at h
      simp only [Option.some.injEq] at h
      subst h
      exact ⟨x, by simp, by simpa using hx, by intro j hj e2 he2; omega⟩

theorem exists_free_findFreeIdx {α : Type} {s : List (Element α)}
    (h : ∃ e ∈ s, e.inUse = false) : ∃ i, findFreeIdx s = some i := by
  cases hf : findFreeIdx s with
  | some i => exact ⟨i, rfl⟩
  | none =>
    obtain ⟨e, hmem, hu⟩ := h
    have := findFreeIdx_eq_none.mp hf e hmem
    simp [this] at hu

theorem findMatchIdx_eq_none {α : Type} {pred : α → Bool} {s : List (Element α)} :
    findMatchIdx pred s = none ↔ ∀ e ∈ s, ¬(e.inUse = true ∧ pred e.data = true) := by
  induction s with
  | nil => simp [findMatchIdx]
  | cons x rest ih =>
    by_cases hx : x.inUse && pred x.data
    · rw [findMatchIdx, if_pos hx]
      simp only [Bool.and_eq_true] at hx
      constructor
      · intro habs; exact Option.noConfusion habs
      · intro hall
        exact absurd hx (hall x (List.mem_cons_self x rest))
    · rw [findMatchIdx, if_neg hx]
      rw [Option.map_eq_none', ih]
      simp only [Bool.and_eq_true] at hx
      constructor
      · intro hall e hmem
        rcases List.mem_cons.mp hmem with rfl | hmem2
        · exact hx
        · exact hall e hmem2
      · intro hall e hmem
        exact hall e (List.mem_cons_of_mem x hmem)

theorem findMatchIdx_some {α : Type} {pred : α → Bool} {s : List (Element α)}
    {i : Nat} (h : findMatchIdx pred s = some i) :
    ∃ e, s[i]? = some e ∧ e.inUse = true ∧ pred e.data = true ∧
      ∀ j, j < i → ∀ e2, s[j]? = some e2 → ¬(e2.inUse = true ∧ pred e2.data = true) := by
  induction s generalizing i with
  | nil => simp [findMatchIdx] at h
  | cons x rest ih =>
    by_cases hx : x.inUse && pred x.data
    · rw [findMatchIdx, if_pos hx] at h
      simp only [Option.some.injEq] at h
      subst h
      simp only [Bool.and_eq_true] at hx
      exact ⟨x, by simp, hx.1, hx.2, by intro j hj e2 he2; omega⟩
    · rw [findMatchIdx, if_neg hx] at h
      cases hfr : findMatchIdx pred rest with
      | none => rw [hfr] at h; simp at h
      | some k =>
        rw [hfr] at h
        simp only [Option.map_some', Option.some.injEq] at h
        subst h
        obtain ⟨e, he, hu, hp, hbefore⟩ := ih hfr
        refine ⟨e, by simpa using he, hu, hp, ?_⟩
        intro j hj e2 he2
        cases j with
        | zero =>
          simp only [List.getElem?_cons_zero, Option.some.injEq] at he2
          subst he2
          simp only [Bool.and_eq_true] at hx
          intro ⟨h1, h2⟩; exact hx ⟨h1, h2⟩
        | succ m =>
          simp only [List.getElem?_cons_succ] at he2
          exact hbefore m (by omega) e2 he2

/-! ## Indexing helpers -/

theorem exists_getElem?_eq_some {β : Type} {l : List β} {n : Nat}
    (h : n < l.length) : ∃ a, l[n]? = some a := by
  induction l generalizing n with
  | nil => simp at h
  | cons x rest ih =>
    cases n with
    | zero => exact ⟨x, by simp⟩
    | succ m =>
      simp only [List.getElem?_cons_succ]
      exact ih (by simp at h; omega)

theorem mem_of_getElem?_eq_some {β : Type} {l : List β} {n : Nat} {a : β}
    (h : l[n]? = some a) : a ∈ l := by
  induction l generalizing n with
  | nil => simp at h
  | cons x rest ih =>
    cases n with
    | zero =>
      simp only [List.getElem?_cons_zero, Option.some.injEq] at h
      subst h
      exact List.mem_cons_self _ _
    | succ m =>
      simp only [List.getElem?_cons_succ] at h
      exact List.mem_cons_of_mem x (ih h)

theorem lt_length_of_getElem? {β : Type} {l : List β} {n : Nat} {a : β}
    (h : l[n]? = some a) : n < l.length := by
  induction l generalizing n with
  | nil => simp at h
  | cons x rest ih =>
    cases n with
    | zero => simp
    | succ m =>
      simp only [List.getElem?_cons_succ] at h
      have := ih h
      simp only [List.length_cons]
      omega

theorem getElem?_eq_none_of_le {β : Type} {l : List β} {n : Nat}
    (h : l.length ≤ n) : l[n]? = none := by
  induction l generalizing n with
  | nil => simp
  | cons x rest ih =>
    cases n with
    | zero => simp at h
    | succ m =>
      simp only [List.getElem?_cons_succ]
      exact ih (by simp at h; omega)

/-! ## Counting free slots -/

theorem countFree_pos_iff {α : Type} {s : List (Element α)} :
    0 < countFree s ↔ ∃ e ∈ s, e.inUse = false := by
  induction s with
  | nil => simp [countFree]
  | cons x rest ih =>
    by_cases hx : x.inUse <;> simp [countFree, hx, ih]

theorem countFree_markSlot_true {α : Type} {s : List (Element α)} {i : Nat}
    {e : Element α} (h : s[i]? = some e) (hu : e.inUse = false) :
    countFree (markSlot true s i) + 1 = countFree s := by
  induction s generalizing i with
  | nil => simp at h
  | cons x rest ih =>
    cases i with
    | zero =>
      simp only [List.getElem?_cons_zero, Option.some.injEq] at h
      rw [← h] at hu
      have hb : ({ x with inUse := true } : Element α).inUse = true := rfl
      simp only [markSlot, countFree, hb, hu]
      rw [if_pos trivial, if_neg Bool.false_ne_true]
      omega
    | succ n =>
      simp only [List.getElem?_cons_succ] at h
      simp only [markSlot, countFree]
      have := ih h
      omega

theorem countFree_replicate {α : Type} (n : Nat) (d : α) :
    countFree (List.replicate n (⟨d, false⟩ : Element α)) = n := by
  induction n with
  | zero => rfl
  | succ m ih =>
    rw [List.replicate_succ]
    simp only [countFree, ih]
    rw [if_neg Bool.false_ne_true]
    omega

/-! ## Allocation lemmas -/

theorem allocate_of_full {α : Type} {s : List (Element α)}
    (h : ∀ e ∈ s, e.inUse = true) : allocate s = (.error .CapacityExceeded, s) := by
  have hn : findFreeIdx s = none := findFreeIdx_eq_none.mpr h
  simp [allocate, hn]

theorem allocate_of_free {α : Type} {s : List (Element α)}
    (h : ∃ e ∈ s, e.inUse = false) :
    ∃ i e, findFreeIdx s = some i ∧ s[i]? = some e ∧ e.inUse = false ∧
      (∀ j, j < i → ∀ e2, s[j]? = some e2 → e2.inUse = true) ∧
      allocate s = (.ok ⟨i, e.data⟩, markSlot true s i) := by
  obtain ⟨i, hi⟩ := exists_free_findFreeIdx h
  obtain ⟨e, he, hu, hbefore⟩ := findFreeIdx_some hi
  exact ⟨i, e, hi, he, hu, hbefore, by simp [allocate, hi, he]⟩

theorem allocTimes_spec {α : Type} : ∀ (k : Nat) (s : List (Element α)),
    k ≤ countFree s →
    (∀ r ∈ (allocTimes k s).1, ∃ v, r = .ok v) ∧
      countFree (allocTimes k s).2 + k = countFree s := by
  intro k
  induction k with
  | zero =>
    intro s _
    constructor
    · intro r hr
      simp [allocTimes] at hr
    · simp [allocTimes]
  | succ n ih =>
    intro s hk
    have hfree : ∃ e ∈ s, e.inUse = false := countFree_pos_iff.mp (by omega)
    obtain ⟨i, e, hi, he, hu, _, halloc⟩ := allocate_of_free hfree
    have hcount : countFree (markSlot true s i) + 1 = countFree s :=
      countFree_markSlot_true he hu
    have hrec := ih (markSlot true s i) (by omega)
    constructor
    · intro r hr
      simp only [allocTimes, halloc] at hr
      rcases List.mem_cons.mp hr with rfl | hmem
      · exact ⟨_, rfl⟩
      · exact hrec.1 r hmem
    · simp only [allocTimes, halloc]
      have h1 := hrec.2
      omega

/-! ## Enumeration (`dump`) lemmas -/

theorem dumpLoop_ok {α : Type} {s : List (Element α)}
    (hall : ∀ e ∈ s, e.inUse = true) :
    ∀ (rem i : Nat), i + rem ≤ s.length →
    ∃ l, dumpLoop s rem i = .ok l ∧ l.map Prod.fst = List.range' i rem ∧
      ∀ p ∈ l, ∃ e, s[p.1]? = some e ∧ e.inUse = true ∧ e.data = p.2 := by
  intro rem
  induction rem with
  | zero =>
    intro i _
    refine ⟨[], rfl, rfl, ?_⟩
    intro p hp
    simp at hp
  | succ n ih =>
    intro i hle
    have hi : i < s.length := by omega
    obtain ⟨e, he⟩ := exists_getElem?_eq_some hi
    have hmem : e ∈ s := by
      exact mem_of_getElem?_eq_some he
    have huse : e.inUse = true := hall e hmem
    have hview : view s i = .ok ⟨i, e.data⟩ := by simp [view, he, huse]
    obtain ⟨l, hl, hmap, hdata⟩ := ih (i + 1) (by omega)
    refine ⟨(i, e.data) :: l, ?_, ?_, ?_⟩
    · simp [dumpLoop, hview, hl]
    · simp only [List.map_cons, hmap, List.range'_succ]
    · intro p hp
      rcases List.mem_cons.mp hp with rfl | hp2
      · exact ⟨e, he, huse, rfl⟩
      · exact hdata p hp2

theorem dumpLoop_error {α : Type} {s : List (Element α)} :
    ∀ (rem i j : Nat) (e : Element α), i ≤ j → j < i + rem →
    s[j]? = some e → e.inUse = false →
    (∀ k e2, i ≤ k → k < j → s[k]? = some e2 → e2.inUse = true) →
    dumpLoop s rem i = .error .NotAllocated := by
  intro rem
  induction rem with
  | zero => intro i j e h1 h2 _ _ _; omega
  | succ n ih =>
    intro i j e hij hj he hu hbefore
    by_cases hji : i = j
    · subst hji
      have hview : view s i = .error .NotAllocated := by simp [view, he, hu]
      simp [dumpLoop, hview]
    · have hi_lt : i < j := by omega
      obtain ⟨e2, hei⟩ := exists_getElem?_eq_some
        (show i < s.length by have := lt_length_of_getElem? he; omega)
      have huse : e2.inUse = true := hbefore i e2 (Nat.le_refl i) hi_lt hei
      have hview : view s i = .ok ⟨i, e2.data⟩ := by simp [view, hei, huse]
      have hrec := ih (i + 1) j e (by omega) (by omega) he hu
        (fun k e3 hk1 hk2 hk3 => hbefore k e3 (by omega) hk2 hk3)
      simp [dumpLoop, hview, hrec]

theorem exists_match_findMatchIdx {α : Type} {pred : α → Bool} {s : List (Element α)}
    (h : ∃ e ∈ s, e.inUse = true ∧ pred e.data = true) :
    ∃ i, findMatchIdx pred s = some i := by
  cases hf : findMatchIdx pred s with
  | some i => exact ⟨i, rfl⟩
  | none =>
    obtain ⟨e, hmem, hu⟩ := h
    exact absurd hu (findMatchIdx_eq_none.mp hf e hmem)

theorem getElem?_markSlot_data {α : Type} (b : Bool) (s : List (Element α)) (i : Nat)
    {j : Nat} {e : Element α} (h : s[j]? = some e) :
    ∃ e2, (markSlot b s i)[j]? = some e2 ∧ e2.data = e.data := by
  by_cases hj : j = i
  · subst hj
    exact ⟨{ e with inUse := b }, getElem?_markSlot_self h b, rfl⟩
  · refine ⟨e, ?_, rfl⟩
    rw [getElem?_markSlot_ne b s hj]
    exact h

/-! ## The claims -/

/-- C1: for every pool state containing at least one free slot,
`allocate()` selects the free slot with the smallest index (every slot
before it is occupied), sets that slot's occupied flag to true, returns
a view bound to that slot exposing the payload exactly as it was, and
modifies no payload of any slot (the chosen slot keeps its data with
only the flag flipped; every other slot is untouched). -/
theorem C1_allocate_first_free (α : Type) (s : List (Element α))
    (h : ∃ e ∈ s, e.inUse = false) :
    ∃ i e, s[i]? = some e ∧ e.inUse = false ∧
      (∀ j, j < i → ∀ e2, s[j]? = some e2 → e2.inUse = true) ∧
      (allocate s).1 = .ok ⟨i, e.data⟩ ∧
      ((allocate s).2)[i]? = some { e with inUse := true } ∧
      ∀ j, j ≠ i → ((allocate s).2)[j]? = s[j]? := by
  obtain ⟨i, e, hi, he, hu, hbefore, halloc⟩ := allocate_of_free h
  refine ⟨i, e, he, hu, hbefore, ?_, ?_, ?_⟩
  · rw [halloc]
  · rw [halloc]
    exact getElem?_markSlot_self he true
  · intro j hj
    rw [halloc]
    exact getElem?_markSlot_ne true s hj

/-- Witness for C1 at a concrete two-slot state whose only free slot is
slot 1. -/
theorem C1_witness :
    ∃ i e, ([⟨5, true⟩, ⟨7, false⟩] : List (Element Nat))[i]? = some e ∧
      e.inUse = false ∧
      (∀ j, j < i → ∀ e2,
        ([⟨5, true⟩, ⟨7, false⟩] : List (Element Nat))[j]? = some e2 →
        e2.inUse = true) ∧
      (allocate ([⟨5, true⟩, ⟨7, false⟩] : List (Element Nat))).1 = .ok ⟨i, e.data⟩ ∧
      ((allocate ([⟨5, true⟩, ⟨7, false⟩] : List (Element Nat))).2)[i]? =
        some { e with inUse := true } ∧
      ∀ j, j ≠ i →
        ((allocate ([⟨5, true⟩, ⟨7, false⟩] : List (Element Nat))).2)[j]? =
          ([⟨5, true⟩, ⟨7, false⟩] : List (Element Nat))[j]? :=
  C1_allocate_first_free Nat [⟨5, true⟩, ⟨7, false⟩] ⟨⟨7, false⟩, by simp, rfl⟩

/-- C2: if every slot is occupied, `allocate()` signals `CapacityExceeded`
and changes no state; and starting from the empty pool of
`maxElementNumber` slots, `allocate()` called exactly `maxElementNumber`
times with no interleaved frees succeeds every time, and the next call
signals `CapacityExceeded`. -/
theorem C2_capacity_exceeded (α : Type) :
    (∀ s : List (Element α), (∀ e ∈ s, e.inUse = true) →
       allocate s = (.error .CapacityExceeded, s)) ∧
    (∀ d : α,
       (∀ r ∈ (allocTimes maxElementNumber
           (List.replicate maxElementNumber ⟨d, false⟩)).1, ∃ v, r = .ok v) ∧
       (allocate (allocTimes maxElementNumber
           (List.replicate maxElementNumber ⟨d, false⟩)).2).1
         = .error .CapacityExceeded) := by
  constructor
  · intro s hfull
    exact allocate_of_full hfull
  · intro d
    have hcount := countFree_replicate maxElementNumber d
    have hspec := allocTimes_spec maxElementNumber
      (List.replicate maxElementNumber (⟨d, false⟩ : Element α)) (by omega)
    refine ⟨hspec.1, ?_⟩
    have h2 := hspec.2
    have hnofree : ∀ e ∈ (allocTimes maxElementNumber
        (List.replicate maxElementNumber (⟨d, false⟩ : Element α))).2, e.inUse = true := by
      intro e hmem
      cases hb : e.inUse with
      | true => rfl
      | false =>
        have hpos : 0 < countFree (allocTimes maxElementNumber
            (List.replicate maxElementNumber (⟨d, false⟩ : Element α))).2 :=
          countFree_pos_iff.mpr ⟨e, hmem, hb⟩
        omega
    rw [allocate_of_full hnofree]

/-- Witness for C2: the full-pool conjunct applied to a concrete fully
occupied one-slot state. -/
theorem C2_witness :
    allocate ([⟨3, true⟩] : List (Element Nat)) =
      (.error .CapacityExceeded, [⟨3, true⟩]) :=
  (C2_capacity_exceeded Nat).1 [⟨3, true⟩] (by decide)

/-- C3: `deallocate(idx)` on a valid index never fails: it returns the
prior occupied flag, leaves the slot free afterwards (payload kept), and
on an already-free slot it returns false and leaves the whole pool state
unchanged; called twice in a row on a freshly allocated index it returns
true then false; an out-of-range index signals `IndexOutOfRange` with no
state change. -/
theorem C3_deallocate_index (α : Type) (s : List (Element α)) (idx : Nat) :
    (∀ e, s[idx]? = some e →
       (deallocate s idx).1 = .ok e.inUse ∧
       ((deallocate s idx).2)[idx]? = some { e with inUse := false } ∧
       (e.inUse = false → (deallocate s idx).2 = s)) ∧
    (s.length ≤ idx → deallocate s idx = (.error .IndexOutOfRange, s)) ∧
    (∀ v s2, allocate s = (.ok v, s2) →
       (deallocate s2 v.idx).1 = .ok true ∧
       (deallocate (deallocate s2 v.idx).2 v.idx).1 = .ok false) := by
  refine ⟨?_, ?_, ?_⟩
  · intro e he
    refine ⟨?_, ?_, ?_⟩
    · simp [deallocate, he]
    · simp only [deallocate, he]
      exact getElem?_markSlot_self he false
    · intro hfree
      simp only [deallocate, he]
      exact markSlot_eq_self he hfree
  · intro hlen
    have hn : s[idx]? = none := getElem?_eq_none_of_le hlen
    simp [deallocate, hn]
  · intro v s2 halloc
    by_cases hex : ∃ e ∈ s, e.inUse = false
    · obtain ⟨i, e, hi, he, hu, hbefore, heq⟩ := allocate_of_free hex
      rw [heq] at halloc
      have hv : Except.ok (⟨i, e.data⟩ : ElementView α) = Except.ok v :=
        congrArg Prod.fst halloc
      have hs2 : markSlot true s i = s2 := congrArg Prod.snd halloc
      subst hs2
      have hv2 : (⟨i, e.data⟩ : ElementView α) = v := by injection hv
      subst hv2
      have hset : (markSlot true s i)[i]? = some { e with inUse := true } :=
        getElem?_markSlot_self he true
      constructor
      · simp [deallocate, hset]
      · have hsnd : (deallocate (markSlot true s i) i).2 =
            markSlot false (markSlot true s i) i := by
          simp [deallocate, hset]
        have hset2 : (markSlot false (markSlot true s i) i)[i]? =
            some { e with inUse := false } := getElem?_markSlot_self hset false
        have hidx : (⟨i, e.data⟩ : ElementView α).idx = i := rfl
        rw [hidx, hsnd]
        simp [deallocate, hset2]
    · have hfull : ∀ e ∈ s, e.inUse = true := by
        intro e hmem
        cases hb : e.inUse with
        | true => rfl
        | false => exact absurd ⟨e, hmem, hb⟩ hex
      rw [allocate_of_full hfull] at halloc
      have h6 : (Except.error VaultError.CapacityExceeded :
          Except VaultError (ElementView α)) = .ok v := congrArg Prod.fst halloc
      exact Except.noConfusion h6

/-- Witness for C3: on the one-slot pool whose slot is free, the slot
returned by `allocate` is freed twice in a row, yielding true then
false. -/
theorem C3_witness :
    (deallocate ([⟨4, true⟩] : List (Element Nat)) 0).1 = .ok true ∧
    (deallocate (deallocate ([⟨4, true⟩] : List (Element Nat)) 0).2 0).1 = .ok false :=
  (C3_deallocate_index Nat [⟨4, false⟩] 0).2.2 ⟨0, 4⟩ [⟨4, true⟩] rfl

/-- C4: `deallocate(predicate)` scans slots in index order; if some slot
is both occupied and satisfies the predicate on its current data, the
first such slot has its occupied flag cleared and the call returns true
(the prior flag value); if no occupied slot satisfies the predicate the
call returns false without signalling an error and without changing any
state. -/
theorem C4_deallocate_pred (α : Type) (pred : α → Bool) (s : List (Element α)) :
    ((∃ e ∈ s, e.inUse = true ∧ pred e.data = true) →
       ∃ (i : Nat) (e : Element α), s[i]? = some e ∧ e.inUse = true ∧ pred e.data = true ∧
         (∀ j, j < i → ∀ e2, s[j]? = some e2 →
            ¬(e2.inUse = true ∧ pred e2.data = true)) ∧
         (deallocatePred pred s).1 = true ∧
         ((deallocatePred pred s).2)[i]? = some { e with inUse := false }) ∧
    ((∀ e ∈ s, ¬(e.inUse = true ∧ pred e.data = true)) →
       deallocatePred pred s = (false, s)) := by
  constructor
  · intro hex
    obtain ⟨i, hi⟩ := exists_match_findMatchIdx hex
    obtain ⟨e, he, hu, hp, hbefore⟩ := findMatchIdx_some hi
    refine ⟨i, e, he, hu, hp, hbefore, ?_, ?_⟩
    · simp [deallocatePred, hi, he, hu]
    · simp only [deallocatePred, hi, he]
      exact getElem?_markSlot_self he false
  · intro hnone
    have hn : findMatchIdx pred s = none := findMatchIdx_eq_none.mpr hnone
    simp [deallocatePred, hn]

/-- Witness for C4 at a two-slot state where only slot 1 matches the
predicate. -/
theorem C4_witness :
    ∃ (i : Nat) (e : Element Nat),
      ([⟨1, true⟩, ⟨2, true⟩] : List (Element Nat))[i]? = some e ∧
      e.inUse = true ∧ (fun d => d == 2) e.data = true ∧
      (∀ j, j < i → ∀ e2,
        ([⟨1, true⟩, ⟨2, true⟩] : List (Element Nat))[j]? = some e2 →
        ¬(e2.inUse = true ∧ (fun d => d == 2) e2.data = true)) ∧
      (deallocatePred (fun d => d == 2) ([⟨1, true⟩, ⟨2, true⟩] : List (Element Nat))).1
        = true ∧
      ((deallocatePred (fun d => d == 2)
          ([⟨1, true⟩, ⟨2, true⟩] : List (Element Nat))).2)[i]? =
        some { e with inUse := false } :=
  (C4_deallocate_pred Nat (fun d => d == 2) [⟨1, true⟩, ⟨2, true⟩]).1
    ⟨⟨2, true⟩, by simp, rfl, rfl⟩

/-- C5: `view(idx)` on an out-of-range index signals `IndexOutOfRange`;
on an in-range free slot it signals `NotAllocated` — a failure distinct
from `IndexOutOfRange` — after acquiring and then releasing the slot
lock; on an in-range occupied slot it succeeds with a view bound to that
slot. -/
theorem C5_view_errors (α : Type) (s : List (Element α)) (idx : Nat) :
    (s.length ≤ idx → view s idx = .error .IndexOutOfRange) ∧
    (∀ e, s[idx]? = some e →
       (e.inUse = false →
          view s idx = .error .NotAllocated ∧
          viewEvents s idx = [.acqSlot idx, .relSlot idx]) ∧
       (e.inUse = true → view s idx = .ok ⟨idx, e.data⟩)) ∧
    (VaultError.NotAllocated ≠ VaultError.IndexOutOfRange) := by
  refine ⟨?_, ?_, by decide⟩
  · intro hlen
    have hn : s[idx]? = none := getElem?_eq_none_of_le hlen
    simp [view, hn]
  · intro e he
    constructor
    · intro hfree
      constructor
      · simp [view, he, hfree]
      · simp [viewEvents, he, hfree]
    · intro hocc
      simp [view, he, hocc]

/-- Witness for C5 at a one-slot pool whose slot is free: viewing it
fails with `NotAllocated` and the slot lock is acquired then released. -/
theorem C5_witness :
    view ([⟨9, false⟩] : List (Element Nat)) 0 = .error .NotAllocated ∧
    viewEvents ([⟨9, false⟩] : List (Element Nat)) 0 = [.acqSlot 0, .relSlot 0] :=
  ((C5_view_errors Nat [⟨9, false⟩] 0).2.1 ⟨9, false⟩ rfl).1 rfl

set_option maxRecDepth 8192 in
/-- C6 counterexample: the claim says enumeration skips each unoccupied
slot without signalling an error and terminates normally regardless of
which slots are free; but on the all-free initial pool state `dump`
signals an error (the `view(i)` call inside the loop throws at slot 0
and nothing catches it). -/
theorem C6_counterexample :
    dump (List.replicate maxElementNumber (⟨0, false⟩ : Element Nat)) =
      .error .NotAllocated := rfl

/-- C6 (amended): `dump` visits indices in ascending order invoking the
visitor on each occupied slot's data, but it does not skip unoccupied
slots: it terminates normally (visiting every index exactly once, in
order) only when every slot is occupied, and signals `NotAllocated` at
the first unoccupied slot otherwise. -/
theorem C6_dump_amended (α : Type) (s : List (Element α)) :
    ((∀ e ∈ s, e.inUse = true) →
       ∃ l, dump s = .ok l ∧ l.map Prod.fst = List.range s.length ∧
         ∀ p ∈ l, ∃ e, s[p.1]? = some e ∧ e.inUse = true ∧ e.data = p.2) ∧
    ((∃ e ∈ s, e.inUse = false) → dump s = .error .NotAllocated) := by
  constructor
  · intro hall
    obtain ⟨l, hl, hmap, hdata⟩ := dumpLoop_ok hall s.length 0 (by omega)
    refine ⟨l, hl, ?_, hdata⟩
    rw [hmap, List.range_eq_range']
  · intro hex
    obtain ⟨i, hi⟩ := exists_free_findFreeIdx hex
    obtain ⟨e, he, hu, hbefore⟩ := findFreeIdx_some hi
    have hlen := lt_length_of_getElem? he
    exact dumpLoop_error s.length 0 i e (Nat.zero_le i) (by omega) he hu
      (fun k e2 _ hk2 hk3 => hbefore k hk2 e2 hk3)

/-- Witness for C6 (amended) at a fully occupied one-slot pool: `dump`
succeeds and visits index 0. -/
theorem C6_witness :
    ∃ l, dump ([⟨3, true⟩] : List (Element Nat)) = .ok l ∧
      l.map Prod.fst = List.range ([⟨3, true⟩] : List (Element Nat)).length ∧
      ∀ p ∈ l, ∃ e, ([⟨3, true⟩] : List (Element Nat))[p.1]? = some e ∧
        e.inUse = true ∧ e.data = p.2 :=
  (C6_dump_amended Nat [⟨3, true⟩]).1 (by decide)

/-- C7: for every valid index, `deallocate(index)` followed immediately
by `view(index)` signals `NotAllocated`. -/
theorem C7_dealloc_then_view (α : Type) (s : List (Element α)) (idx : Nat)
    (h : idx < s.length) :
    view (deallocate s idx).2 idx = .error .NotAllocated := by
  obtain ⟨e, he⟩ := exists_getElem?_eq_some h
  have h2 : (deallocate s idx).2 = markSlot false s idx := by
    simp [deallocate, he]
  rw [h2]
  have h3 := getElem?_markSlot_self he false
  simp [view, h3]

/-- Witness for C7 at a one-slot occupied pool. -/
theorem C7_witness :
    view (deallocate ([⟨6, true⟩] : List (Element Nat)) 0).2 0 =
      .error .NotAllocated :=
  C7_dealloc_then_view Nat [⟨6, true⟩] 0 (by decide)

/-- C8: the occupied flag transitions false→true only inside
`allocate()` (any slot whose flag differs after an `allocate` went from
free to occupied) and true→false only inside a deallocate (either
overload); `view` — whether it succeeds or fails — and enumeration
(`dump`) leave every slot, and in particular every occupied flag,
unchanged (their bodies contain no write; the view's scope ending only
releases the slot lock). -/
theorem C8_occupancy_transitions (α : Type) :
    (∀ (s : List (Element α)) (j : Nat) (e e2 : Element α),
       s[j]? = some e → ((allocate s).2)[j]? = some e2 → e2.inUse ≠ e.inUse →
       e.inUse = false ∧ e2.inUse = true) ∧
    (∀ (s : List (Element α)) (idx j : Nat) (e e2 : Element α),
       s[j]? = some e → ((deallocate s idx).2)[j]? = some e2 → e2.inUse ≠ e.inUse →
       e.inUse = true ∧ e2.inUse = false) ∧
    (∀ (pred : α → Bool) (s : List (Element α)) (j : Nat) (e e2 : Element α),
       s[j]? = some e → ((deallocatePred pred s).2)[j]? = some e2 → e2.inUse ≠ e.inUse →
       e.inUse = true ∧ e2.inUse = false) ∧
    (∀ (s : List (Element α)) (idx : Nat), (viewOp s idx).2 = s) ∧
    (∀ s : List (Element α), (dumpOp s).2 = s) := by
  refine ⟨?_, ?_, ?_, fun s idx => rfl, fun s => rfl⟩
  · intro s j e e2 he he2 hne
    by_cases hex : ∃ a ∈ s, a.inUse = false
    · obtain ⟨i, a, hi, ha, hau, _, heq⟩ := allocate_of_free hex
      rw [heq] at he2
      by_cases hj : j = i
      · rw [hj] at he he2
        have hae : a = e := Option.some.inj (ha.symm.trans he)
        subst hae
        have h4 : (markSlot true s i)[i]? = some { a with inUse := true } :=
          getElem?_markSlot_self ha true
        have h5 : e2 = { a with inUse := true } :=
          (Option.some.inj (h4.symm.trans he2)).symm
        rw [h5]
        exact ⟨hau, rfl⟩
      · rw [getElem?_markSlot_ne true s hj] at he2
        obtain rfl := Option.some.inj (he.symm.trans he2)
        exact absurd rfl hne
    · have hfull : ∀ a ∈ s, a.inUse = true := by
        intro a hmem
        cases hb : a.inUse with
        | true => rfl
        | false => exact absurd ⟨a, hmem, hb⟩ hex
      have h6 : s[j]? = some e2 := by
        rw [allocate_of_full hfull] at he2
        exact he2
      obtain rfl := Option.some.inj (he.symm.trans h6)
      exact absurd rfl hne
  · intro s idx j e e2 he he2 hne
    cases hsx : s[idx]? with
    | none =>
      simp only [deallocate, hsx] at he2
      obtain rfl := Option.some.inj (he.symm.trans he2)
      exact absurd rfl hne
    | some a =>
      simp only [deallocate, hsx] at he2
      by_cases hj : j = idx
      · rw [hj] at he he2
        have hae : a = e := Option.some.inj (hsx.symm.trans he)
        subst hae
        have h4 : (markSlot false s idx)[idx]? = some { a with inUse := false } :=
          getElem?_markSlot_self hsx false
        have h5 : e2 = { a with inUse := false } :=
          (Option.some.inj (h4.symm.trans he2)).symm
        rw [h5] at hne
        constructor
        · cases hb : a.inUse with
          | false => exact absurd hb.symm hne
          | true => rfl
        · rw [h5]
      · rw [getElem?_markSlot_ne false s hj] at he2
        obtain rfl := Option.some.inj (he.symm.trans he2)
        exact absurd rfl hne
  · intro pred s j e e2 he he2 hne
    cases hm : findMatchIdx pred s with
    | none =>
      simp only [deallocatePred, hm] at he2
      obtain rfl := Option.some.inj (he.symm.trans he2)
      exact absurd rfl hne
    | some i =>
      obtain ⟨a, ha, hau, hp, _⟩ := findMatchIdx_some hm
      simp only [deallocatePred, hm, ha] at he2
      by_cases hj : j = i
      · rw [hj] at he he2
        have hae : a = e := Option.some.inj (ha.symm.trans he)
        subst hae
        have h4 : (markSlot false s i)[i]? = some { a with inUse := false } :=
          getElem?_markSlot_self ha false
        have h5 : e2 = { a with inUse := false } :=
          (Option.some.inj (h4.symm.trans he2)).symm
        refine ⟨hau, ?_⟩
        rw [h5]
      · rw [getElem?_markSlot_ne false s hj] at he2
        obtain rfl := Option.some.inj (he.symm.trans he2)
        exact absurd rfl hne

/-- Witness for C8: the deallocate conjunct applied at a concrete
one-slot pool, where the freed slot goes from occupied to free. -/
theorem C8_witness :
    (⟨2, true⟩ : Element Nat).inUse = true ∧
    (⟨2, false⟩ : Element Nat).inUse = false :=
  (C8_occupancy_transitions Nat).2.1 [⟨2, true⟩] 0 0 ⟨2, true⟩ ⟨2, false⟩
    rfl rfl (by decide)

/-- C9 counterexample: the claim says that inside `allocate()` the
directory lock is released before the chosen slot's lock is acquired; at
the all-free initial pool state `allocate` chooses slot 0, and in its
lock-event trace the directory-lock release does NOT precede the slot
acquisition (the local `unique_lock` is destroyed only after the
returned `ElementView` — which locks the slot — has been constructed). -/
theorem C9_counterexample :
    findFreeIdx (List.replicate maxElementNumber (⟨0, false⟩ : Element Nat)) = some 0 ∧
    precedes (allocateEvents (List.replicate maxElementNumber (⟨0, false⟩ : Element Nat)))
      .relDir (.acqSlot 0) = false :=
  ⟨rfl, rfl⟩

/-- C9 (amended): in `allocate()` the chosen slot is marked occupied,
then the slot's own lock is acquired, and only then — when the local
`unique_lock` is destroyed at function exit — is the directory lock
released; so there is a brief window inside `allocate` where both locks
are held, but the directory lock is released by the time `allocate`
returns, hence never while the caller holds the returned view. -/
theorem C9_allocate_lock_order (α : Type) (s : List (Element α)) (i : Nat)
    (h : findFreeIdx s = some i) :
    allocateEvents s = [.acqDir, .markOccupied i, .acqSlot i, .relDir] ∧
    precedes (allocateEvents s) (.markOccupied i) (.acqSlot i) = true ∧
    precedes (allocateEvents s) (.acqSlot i) .relDir = true := by
  have he : allocateEvents s = [.acqDir, .markOccupied i, .acqSlot i, .relDir] := by
    simp [allocateEvents, h]
  refine ⟨he, ?_, ?_⟩
  · rw [he]
    simp [precedes, firstPos]
  · rw [he]
    simp [precedes, firstPos]

/-- Witness for C9 (amended) at the all-free initial pool state. -/
theorem C9_witness :
    allocateEvents (List.replicate maxElementNumber (⟨0, false⟩ : Element Nat)) =
      [.acqDir, .markOccupied 0, .acqSlot 0, .relDir] ∧
    precedes (allocateEvents (List.replicate maxElementNumber (⟨0, false⟩ : Element Nat)))
      (.markOccupied 0) (.acqSlot 0) = true ∧
    precedes (allocateEvents (List.replicate maxElementNumber (⟨0, false⟩ : Element Nat)))
      (.acqSlot 0) .relDir = true :=
  C9_allocate_lock_order Nat (List.replicate maxElementNumber ⟨0, false⟩) 0 rfl

/-- C10: both deallocate overloads leave the payload data of every slot
unchanged (freeing clears only the occupied flag), and
`deallocate(predicate)` changes at most one slot: with no match the
state is returned unchanged, and with a first match at `i` every slot
other than `i` is left entirely unchanged. -/
theorem C10_deallocate_frame (α : Type) (s : List (Element α)) (idx : Nat)
    (pred : α → Bool) :
    (∀ (j : Nat) (e : Element α), s[j]? = some e →
       ∃ e2 : Element α, ((deallocate s idx).2)[j]? = some e2 ∧ e2.data = e.data) ∧
    (∀ (j : Nat) (e : Element α), s[j]? = some e →
       ∃ e2 : Element α, ((deallocatePred pred s).2)[j]? = some e2 ∧ e2.data = e.data) ∧
    (findMatchIdx pred s = none → (deallocatePred pred s).2 = s) ∧
    (∀ i, findMatchIdx pred s = some i →
       ∀ j, j ≠ i → ((deallocatePred pred s).2)[j]? = s[j]?) := by
  refine ⟨?_, ?_, ?_, ?_⟩
  · intro j e he
    cases hsx : s[idx]? with
    | none =>
      refine ⟨e, ?_, rfl⟩
      simp only [deallocate, hsx]
      exact he
    | some a =>
      simp only [deallocate, hsx]
      exact getElem?_markSlot_data false s idx he
  · intro j e he
    cases hm : findMatchIdx pred s with
    | none =>
      refine ⟨e, ?_, rfl⟩
      simp only [deallocatePred, hm]
      exact he
    | some i =>
      cases hsx : s[i]? with
      | none =>
        refine ⟨e, ?_, rfl⟩
        simp only [deallocatePred, hm, hsx]
        exact he
      | some a =>
        simp only [deallocatePred, hm, hsx]
        exact getElem?_markSlot_data false s i he
  · intro hm
    simp [deallocatePred, hm]
  · intro i hm j hj
    obtain ⟨a, ha, _, _, _⟩ := findMatchIdx_some hm
    simp only [deallocatePred, hm, ha]
    exact getElem?_markSlot_ne false s hj

/-- Witness for C10: freeing slot 0 of a one-slot pool keeps its payload. -/
theorem C10_witness :
    ∃ e2 : Element Nat,
      ((deallocate ([⟨8, true⟩] : List (Element Nat)) 0).2)[0]? = some e2 ∧
      e2.data = (⟨8, true⟩ : Element Nat).data :=
  (C10_deallocate_frame Nat [⟨8, true⟩] 0 (fun _ => false)).1 0 ⟨8, true⟩ rfl

end Vault
